import Mathlib

/-!
Verification development for dicom2pdf (app.py).

The pipeline of app.py is embedded shallowly:

* float64 samples are embedded as real numbers, a 2-D pixel grid as
  a list of rows (`List (List ℝ)`);
* `np.percentile` with its default linear-interpolation method is
  `percentile`; the sort inside it is insertion sort (any correct
  ascending sort agrees with numpy on the sorted values);
* `np.clip`, `np.min`, `np.max` and the rescale of `normalize_image`
  are `clip`, `listMin`, `listMax`, `rescale_grid`; `np.power` with a
  real exponent is real exponentiation `Real.rpow`;
* `pydicom.dcmread` and `Dataset.pixel_array` are external
  capabilities, passed in as an oracle `dcmread : F → Option DicomData`
  whose `none` stands for the exceptions the source catches;
* Python strings are embedded through their character lists:
  `str.strip` is `pyStrip`, single-character `str.replace` is
  `pyReplaceChar`;
* the matplotlib `PdfPages` assembler is external to the repository and
  is modelled from the spec (see `document_size`); a rendered page is a
  `Page` record (grayscale plane plus optional title);
* the trailing driver block of app.py (its `failure_code` bitmask
  computation, including the fact that `Path.stat` raises when the
  artifact is missing) is `failure_code` / `run_batch`, with the
  possible uncaught exception made explicit in an `Except` channel.
-/

noncomputable section

/-- numpy's virtual index for the q-th percentile over n samples:
`q / 100 * (n - 1)` (linear interpolation method). -/
def percentile_pos (q : ℝ) (n : ℕ) : ℝ := q * (n - 1 : ℕ) / 100

/-- `np.percentile(xs, q)` with the default linear interpolation:
sort ascending, take the entry at the floor of the virtual index and
interpolate toward the next entry by the fractional part. -/
def percentile (q : ℝ) (xs : List ℝ) : ℝ :=
  match (List.insertionSort (· ≤ ·) xs).drop (⌊percentile_pos q xs.length⌋.toNat) with
  | [] => 0
  | [a] => a
  | a :: b :: _ =>
      a + (percentile_pos q xs.length - (⌊percentile_pos q xs.length⌋ : ℤ)) * (b - a)

/-- `np.clip(x, lo, hi)`, one sample. -/
def clip (x lo hi : ℝ) : ℝ := min (max x lo) hi

/-- `np.min` over a flattened nonempty grid (0 on the empty list, where
numpy would raise). -/
def listMin : List ℝ → ℝ
  | [] => 0
  | x :: xs => xs.foldl min x

/-- `np.max` over a flattened nonempty grid (0 on the empty list, where
numpy would raise). -/
def listMax : List ℝ → ℝ
  | [] => 0
  | x :: xs => xs.foldl max x

/-- `p2` of `normalize_image`: 2nd percentile over all samples. -/
def img_p2 (g : List (List ℝ)) : ℝ := percentile 2 g.flatten

/-- `p98` of `normalize_image`: 98th percentile over all samples. -/
def img_p98 (g : List (List ℝ)) : ℝ := percentile 98 g.flatten

/-- `np.clip(image_array, p2, p98)` of `normalize_image`. -/
def clip_grid (g : List (List ℝ)) : List (List ℝ) :=
  g.map (List.map (fun x => clip x (img_p2 g) (img_p98 g)))

/-- `img_min = np.min(image_array)` after clipping. -/
def img_min (g : List (List ℝ)) : ℝ := listMin (clip_grid g).flatten

/-- `img_max = np.max(image_array)` after clipping. -/
def img_max (g : List (List ℝ)) : ℝ := listMax (clip_grid g).flatten

/-- The conditional rescale of `normalize_image`: if `img_max > img_min`
then `(x - img_min) / (img_max - img_min)`, else the grid unchanged. -/
def rescale_grid (g : List (List ℝ)) : List (List ℝ) :=
  if img_min g < img_max g then
    (clip_grid g).map (List.map (fun x => (x - img_min g) / (img_max g - img_min g)))
  else clip_grid g

/-- `normalize_image(image_array, contrast_factor)` of app.py:
percentile clip, conditional rescale, then
`np.power(image_array, contrast_factor)`. -/
def normalize_image (image_array : List (List ℝ)) (contrast_factor : ℝ) : List (List ℝ) :=
  (rescale_grid image_array).map (List.map (fun x => x ^ contrast_factor))

/-- The scalar function `normalize_image` applies at every position of
the grid `g` (same percentiles, same min/max, same guard). -/
def norm_point (g : List (List ℝ)) (contrast_factor x : ℝ) : ℝ :=
  (if img_min g < img_max g then
      (clip x (img_p2 g) (img_p98 g) - img_min g) / (img_max g - img_min g)
    else clip x (img_p2 g) (img_p98 g)) ^ contrast_factor

/-- The metadata record `read_dicom_image` builds (its dict literal). -/
structure ImageMetadata where
  patient_name : String
  series_description : String
  instance_number : String
  slice_location : String
  study_date : String
  modality : String
  rows : ℕ
  columns : ℕ
deriving DecidableEq

/-- A decoded pydicom dataset, as far as app.py looks at it:
`pixel_array` may raise (`none`), each named attribute may be absent
(`getattr` with a default). -/
structure DicomData where
  pixelArray : Option (List (List ℝ))
  PatientName : Option String
  SeriesDescription : Option String
  InstanceNumber : Option String
  SliceLocation : Option String
  StudyDate : Option String
  Modality : Option String
  Rows : Option ℕ
  Columns : Option ℕ

/-- `read_dicom_image(file_path)` of app.py. `dcmread` is the external
pydicom oracle; `none` stands for any exception it raises, which the
source catches with a bare `except` returning `(None, None)`; the inner
`try` around `pixel_array` likewise. -/
def read_dicom_image {F : Type} (dcmread : F → Option DicomData) (file_path : F) :
    Option (List (List ℝ)) × Option ImageMetadata :=
  match dcmread file_path with
  | none => (none, none)
  | some dicom_data =>
    match dicom_data.pixelArray with
    | none => (none, none)
    | some image_array =>
        (some image_array,
          some {
            patient_name := dicom_data.PatientName.getD ("")
            series_description := dicom_data.SeriesDescription.getD ("")
            instance_number := dicom_data.InstanceNumber.getD ("")
            slice_location := dicom_data.SliceLocation.getD ("")
            study_date := dicom_data.StudyDate.getD ("")
            modality := dicom_data.Modality.getD ("")
            rows := dicom_data.Rows.getD 0
            columns := dicom_data.Columns.getD 0 })

/-- Python `str.replace(a, b)` for one-character patterns, on the
character list of the string. -/
def pyReplaceChar (a b : Char) (s : List Char) : List Char :=
  s.map (fun c => if c = a then b else c)

/-- Python `str.strip()`: drop leading and trailing whitespace. -/
def pyStrip (s : List Char) : List Char :=
  ((s.dropWhile Char.isWhitespace).reverse.dropWhile Char.isWhitespace).reverse

/-- The cleaning app.py applies to the patient name and the series
description, in source order: strip first, then replace the separator
characters by spaces. -/
def clean_text (s : String) : String :=
  String.mk (pyReplaceChar ('_') (' ') (pyReplaceChar ('^') (' ') (pyStrip s.data)))

/-- The page title convert_to_pdf builds: cleaned patient name,
then, when the raw series description is non-empty (Python truthiness),
a separator and the cleaned series description. -/
def page_title (metadata : ImageMetadata) : String :=
  if metadata.series_description = ("") then clean_text metadata.patient_name
  else clean_text metadata.patient_name ++ (" | ") ++ clean_text metadata.series_description

/-- One rendered page: the grayscale image plane and, when the title
string is non-empty, the suptitle overlay (`if title:` in the source). -/
structure Page where
  image : List (List ℝ)
  title : Option String
deriving DecidableEq

/-- Rendering one figure of convert_to_pdf: imshow of the normalized
grid, suptitle only when the title is non-empty. -/
def render_page (norm_img : List (List ℝ)) (title : String) : Page :=
  { image := norm_img, title := if title = ("") then none else some title }

/-- The per-file loop of `convert_to_pdf`: decode, skip on
`(None, None)`, otherwise normalize, render and append the page, in
input order. -/
def batch_pages {F : Type} (dcmread : F → Option DicomData) (contrast_factor : ℝ) :
    List F → List Page
  | [] => []
  | file :: rest =>
    match read_dicom_image dcmread file with
    | (some image_array, some metadata) =>
        render_page (normalize_image image_array contrast_factor) (page_title metadata) ::
          batch_pages dcmread contrast_factor rest
    | _ => batch_pages dcmread contrast_factor rest

/-- The decode step of the loop, as a partial map: `some` exactly when
`read_dicom_image` returns both components. -/
def decoded {F : Type} (dcmread : F → Option DicomData) (file : F) :
    Option ((List (List ℝ)) × ImageMetadata) :=
  match read_dicom_image dcmread file with
  | (some image_array, some metadata) => some (image_array, metadata)
  | _ => none

/-- `convert_to_pdf(dicom_files, output_pdf, contrast_factor, dpi)` of
app.py: returns `False` on an empty input list before opening the
`PdfPages` artifact (`none`); otherwise opens the artifact, appends the
pages the loop produces, and returns `True`. -/
def convert_to_pdf {F : Type} (dcmread : F → Option DicomData) (dicom_files : List F)
    (contrast_factor : ℝ) : Bool × Option (List Page) :=
  if dicom_files.isEmpty then (false, none)
  else (true, some (batch_pages dcmread contrast_factor dicom_files))

/-- Modelled from the spec: the byte size of the artifact the
`PdfPages` Document Assembler finalizes. The assembler is external to
the repository; per spec section 4.4 closing it with zero appended
pages still produces a syntactically valid (hence non-empty) document,
and every appended page adds content. One abstract byte per page plus
one for the fixed header/trailer structures. -/
def document_size (pages : List Page) : ℕ := pages.length + 1

/-- `output_pdf_path.stat().st_size`: raises `FileNotFoundError` when
the artifact was never created, otherwise returns its size. -/
def stat_size (artifact : Option (List Page)) : Except String ℕ :=
  match artifact with
  | some pages => Except.ok (document_size pages)
  | none => Except.error ("FileNotFoundError")

/-- The `failure_code` block of app.py (lines 173-181): bit 0 when the
conversion routine reported failure, bit 1 when the artifact is
missing, bit 2 when it is not a regular file, bit 3 when it is empty.
The artifact, when present, is the regular file `PdfPages` wrote, so
the exists and is_file probes both observe `artifact.isSome`; the
`st_size` probe goes through `stat_size` and its possible uncaught
`FileNotFoundError`. -/
def failure_code (result : Bool) (artifact : Option (List Page)) : Except String ℕ := do
  let c0 := if result = false then 1 <<< 0 else 0
  let c1 := if artifact.isSome = false then 1 <<< 1 else 0
  let c2 := if artifact.isSome = false then 1 <<< 2 else 0
  let st ← stat_size artifact
  let c3 := if st = 0 then 1 <<< 3 else 0
  Except.ok (c0 ||| c1 ||| c2 ||| c3)

/-- One batch run of the driver: `convert_to_pdf` followed by the
`failure_code` computation on its outcome and artifact. -/
def run_batch {F : Type} (dcmread : F → Option DicomData) (dicom_files : List F)
    (contrast_factor : ℝ) : Except String ℕ :=
  failure_code (convert_to_pdf dcmread dicom_files contrast_factor).1
    (convert_to_pdf dcmread dicom_files contrast_factor).2

/-- The title formula exactly as claim C9 words it: separators replaced
by spaces and THEN the result whitespace-trimmed (the source does the
opposite: it trims first). -/
def claimed_title (metadata : ImageMetadata) : String :=
  if metadata.series_description = ("") then
    String.mk (pyStrip (pyReplaceChar ('_') (' ') (pyReplaceChar ('^') (' ') metadata.patient_name.data)))
  else
    String.mk (pyStrip (pyReplaceChar ('_') (' ') (pyReplaceChar ('^') (' ') metadata.patient_name.data)))
      ++ (" | ") ++
      String.mk (pyStrip (pyReplaceChar ('_') (' ') (pyReplaceChar ('^') (' ') metadata.series_description.data)))

/-- The title formula with the order the code actually uses, written in
the spec's vocabulary: patient name whitespace-trimmed first and then
the separator characters replaced by spaces, concatenated with a
separator and the identically cleaned series description when the raw
series description is non-empty. -/
def amended_title (metadata : ImageMetadata) : String :=
  if metadata.series_description = ("") then
    String.mk (pyReplaceChar ('_') (' ') (pyReplaceChar ('^') (' ') (pyStrip metadata.patient_name.data)))
  else
    String.mk (pyReplaceChar ('_') (' ') (pyReplaceChar ('^') (' ') (pyStrip metadata.patient_name.data)))
      ++ (" | ") ++
      String.mk (pyReplaceChar ('_') (' ') (pyReplaceChar ('^') (' ') (pyStrip metadata.series_description.data)))

/-- A concrete decode oracle for witnesses: file 1 is corrupted (the
decoder raises), every other file decodes to a one-pixel image with no
optional attributes present. -/
def witness_dcmread : ℕ → Option DicomData := fun n =>
  if n = 1 then none
  else some
    { pixelArray := some [[0]], PatientName := none, SeriesDescription := none,
      InstanceNumber := none, SliceLocation := none, StudyDate := none,
      Modality := none, Rows := none, Columns := none }

/-- A decode oracle that fails on every file. -/
def failing_dcmread : ℕ → Option DicomData := fun _ => none

end

/-! ### List helpers -/

theorem flatten_map_map (f : ℝ → ℝ) (g : List (List ℝ)) :
    (g.map (List.map f)).flatten = g.flatten.map f :=
  (List.map_flatten f g).symm

theorem foldl_min_le_init (xs : List ℝ) (a : ℝ) : xs.foldl min a ≤ a := by
  induction xs generalizing a with
  | nil => exact le_refl a
  | cons y ys ih => exact le_trans (ih (min a y)) (min_le_left a y)

theorem foldl_min_le_of_mem (xs : List ℝ) (a x : ℝ) (hx : x ∈ xs) : xs.foldl min a ≤ x := by
  induction xs generalizing a with
  | nil => cases hx
  | cons y ys ih =>
    rcases List.mem_cons.mp hx with h | h
    · subst h
      exact le_trans (foldl_min_le_init ys (min a x)) (min_le_right a x)
    · exact ih (min a y) h

theorem listMin_le_of_mem (l : List ℝ) (x : ℝ) (hx : x ∈ l) : listMin l ≤ x := by
  cases l with
  | nil => cases hx
  | cons y ys =>
    rcases List.mem_cons.mp hx with h | h
    · subst h; exact foldl_min_le_init ys x
    · exact foldl_min_le_of_mem ys y x h

theorem init_le_foldl_max (xs : List ℝ) (a : ℝ) : a ≤ xs.foldl max a := by
  induction xs generalizing a with
  | nil => exact le_refl a
  | cons y ys ih => exact le_trans (le_max_left a y) (ih (max a y))

theorem mem_le_foldl_max (xs : List ℝ) (a x : ℝ) (hx : x ∈ xs) : x ≤ xs.foldl max a := by
  induction xs generalizing a with
  | nil => cases hx
  | cons y ys ih =>
    rcases List.mem_cons.mp hx with h | h
    · subst h
      exact le_trans (le_max_right a x) (init_le_foldl_max ys (max a x))
    · exact ih (max a y) h

theorem le_listMax_of_mem (l : List ℝ) (x : ℝ) (hx : x ∈ l) : x ≤ listMax l := by
  cases l with
  | nil => cases hx
  | cons y ys =>
    rcases List.mem_cons.mp hx with h | h
    · subst h; exact init_le_foldl_max ys x
    · exact mem_le_foldl_max ys y x h

theorem le_foldl_min (xs : List ℝ) (a c : ℝ) (ha : c ≤ a) (h : ∀ x ∈ xs, c ≤ x) :
    c ≤ xs.foldl min a := by
  induction xs generalizing a with
  | nil => exact ha
  | cons y ys ih =>
    exact ih (min a y) (le_min ha (h y (List.mem_cons_self y ys)))
      (fun x hx => h x (List.mem_cons_of_mem y hx))

theorem foldl_max_le (xs : List ℝ) (a c : ℝ) (ha : a ≤ c) (h : ∀ x ∈ xs, x ≤ c) :
    xs.foldl max a ≤ c := by
  induction xs generalizing a with
  | nil => exact ha
  | cons y ys ih =>
    exact ih (max a y) (max_le ha (h y (List.mem_cons_self y ys)))
      (fun x hx => h x (List.mem_cons_of_mem y hx))

theorem listMin_of_const (l : List ℝ) (c : ℝ) (hne : l ≠ []) (hc : ∀ x ∈ l, x = c) :
    listMin l = c := by
  cases l with
  | nil => exact absurd rfl hne
  | cons y ys =>
    apply le_antisymm
    · exact listMin_le_of_mem (y :: ys) c
        ((hc y (List.mem_cons_self y ys)) ▸ List.mem_cons_self y ys)
    · exact le_foldl_min ys y c (le_of_eq (hc y (List.mem_cons_self y ys)).symm)
        (fun x hx => le_of_eq (hc x (List.mem_cons_of_mem y hx)).symm)

theorem listMax_of_const (l : List ℝ) (c : ℝ) (hne : l ≠ []) (hc : ∀ x ∈ l, x = c) :
    listMax l = c := by
  cases l with
  | nil => exact absurd rfl hne
  | cons y ys =>
    apply le_antisymm
    · exact foldl_max_le ys y c (le_of_eq (hc y (List.mem_cons_self y ys)))
        (fun x hx => le_of_eq (hc x (List.mem_cons_of_mem y hx)))
    · exact le_listMax_of_mem (y :: ys) c
        ((hc y (List.mem_cons_self y ys)) ▸ List.mem_cons_self y ys)

theorem map_map_congr (g : List (List ℝ)) (f f' : ℝ → ℝ)
    (h : ∀ x ∈ g.flatten, f x = f' x) : g.map (List.map f) = g.map (List.map f') := by
  apply List.map_congr_left
  intro row hrow
  apply List.map_congr_left
  intro x hx
  exact h x (List.mem_flatten_of_mem hrow hx)

theorem map_map_id (g : List (List ℝ)) (f : ℝ → ℝ) (h : ∀ x ∈ g.flatten, f x = x) :
    g.map (List.map f) = g := by
  have h2 := map_map_congr g f id h
  simpa using h2

/-! ### Percentile lemmas -/

theorem percentile_drop_single {q : ℝ} {xs : List ℝ} {a : ℝ}
    (hd : (List.insertionSort (· ≤ ·) xs).drop (⌊percentile_pos q xs.length⌋.toNat) = [a]) :
    percentile q xs = a := by
  unfold percentile
  rw [hd]

theorem percentile_drop_pair {q : ℝ} {xs : List ℝ} {a b : ℝ} {rest : List ℝ}
    (hd : (List.insertionSort (· ≤ ·) xs).drop (⌊percentile_pos q xs.length⌋.toNat) =
      a :: b :: rest) :
    percentile q xs =
      a + (percentile_pos q xs.length - (⌊percentile_pos q xs.length⌋ : ℤ)) * (b - a) := by
  unfold percentile
  rw [hd]

theorem percentile_const (q c : ℝ) (xs : List ℝ) (hne : xs ≠ []) (hq0 : 0 ≤ q)
    (hq1 : q ≤ 100) (hc : ∀ x ∈ xs, x = c) : percentile q xs = c := by
  have hperm := List.perm_insertionSort (· ≤ ·) xs
  have hlen : (List.insertionSort (· ≤ ·) xs).length = xs.length := hperm.length_eq
  have hmem : ∀ a ∈ List.insertionSort (· ≤ ·) xs, a = c := fun a ha =>
    hc a (hperm.mem_iff.mp ha)
  have hn : 1 ≤ xs.length := List.length_pos.mpr hne
  have hposle : percentile_pos q xs.length ≤ ((xs.length - 1 : ℕ) : ℝ) := by
    unfold percentile_pos
    have h1 : q * ((xs.length - 1 : ℕ) : ℝ) ≤ 100 * ((xs.length - 1 : ℕ) : ℝ) :=
      mul_le_mul_of_nonneg_right hq1 (Nat.cast_nonneg _)
    linarith
  have hfl : (⌊percentile_pos q xs.length⌋).toNat ≤ xs.length - 1 := by
    have h2 : ⌊percentile_pos q xs.length⌋ ≤ ((xs.length - 1 : ℕ) : ℤ) := by
      have h3 := Int.floor_le_floor hposle
      rwa [Int.floor_natCast] at h3
    exact Int.toNat_le.mpr h2
  have hlt : (⌊percentile_pos q xs.length⌋).toNat < (List.insertionSort (· ≤ ·) xs).length := by
    rw [hlen]; omega
  rcases hd : (List.insertionSort (· ≤ ·) xs).drop (⌊percentile_pos q xs.length⌋.toNat) with
    _ | ⟨a, tail⟩
  · exact absurd (List.drop_eq_nil_iff.mp hd) (by omega)
  · have hamem : a ∈ List.insertionSort (· ≤ ·) xs :=
      List.mem_of_mem_drop (hd ▸ List.mem_cons_self a tail)
    rcases tail with _ | ⟨b, rest⟩
    · rw [percentile_drop_single hd]
      exact hmem a hamem
    · have hbmem : b ∈ List.insertionSort (· ≤ ·) xs :=
        List.mem_of_mem_drop (hd ▸ List.mem_cons_of_mem a (List.mem_cons_self b rest))
      rw [percentile_drop_pair hd, hmem a hamem, hmem b hbmem]
      ring

/-! ### Normalizer lemmas -/

theorem clip_mem_clip_grid (g : List (List ℝ)) (x : ℝ) (hx : x ∈ g.flatten) :
    clip x (img_p2 g) (img_p98 g) ∈ (clip_grid g).flatten := by
  unfold clip_grid
  rw [flatten_map_map]
  exact List.mem_map_of_mem _ hx

theorem img_min_le_clip (g : List (List ℝ)) (x : ℝ) (hx : x ∈ g.flatten) :
    img_min g ≤ clip x (img_p2 g) (img_p98 g) :=
  listMin_le_of_mem _ _ (clip_mem_clip_grid g x hx)

theorem clip_le_img_max (g : List (List ℝ)) (x : ℝ) (hx : x ∈ g.flatten) :
    clip x (img_p2 g) (img_p98 g) ≤ img_max g :=
  le_listMax_of_mem _ _ (clip_mem_clip_grid g x hx)

theorem rescale_unit (g : List (List ℝ)) (x : ℝ) (h : img_min g < img_max g)
    (hx : x ∈ g.flatten) :
    0 ≤ (clip x (img_p2 g) (img_p98 g) - img_min g) / (img_max g - img_min g) ∧
      (clip x (img_p2 g) (img_p98 g) - img_min g) / (img_max g - img_min g) ≤ 1 := by
  constructor
  · exact div_nonneg (sub_nonneg.mpr (img_min_le_clip g x hx)) (le_of_lt (sub_pos.mpr h))
  · rw [div_le_one (sub_pos.mpr h)]
    exact sub_le_sub_right (clip_le_img_max g x hx) _

theorem norm_point_unit (g : List (List ℝ)) (cf x : ℝ) (hcf : 0 ≤ cf)
    (h : img_min g < img_max g) (hx : x ∈ g.flatten) :
    0 ≤ norm_point g cf x ∧ norm_point g cf x ≤ 1 := by
  unfold norm_point
  rw [if_pos h]
  obtain ⟨h0, h1⟩ := rescale_unit g x h hx
  exact ⟨Real.rpow_nonneg h0 _, Real.rpow_le_one h0 h1 hcf⟩

theorem normalize_image_eq_map (g : List (List ℝ)) (cf : ℝ) :
    normalize_image g cf = g.map (List.map (norm_point g cf)) := by
  by_cases h : img_min g < img_max g <;>
    simp [normalize_image, rescale_grid, norm_point, clip_grid, h, List.map_map,
      Function.comp]

theorem norm_point_mono (g : List (List ℝ)) (cf : ℝ) (hcf : 0 ≤ cf)
    (h : img_min g < img_max g) {x y : ℝ} (hx : x ∈ g.flatten) (hxy : x ≤ y) :
    norm_point g cf x ≤ norm_point g cf y := by
  unfold norm_point
  simp only [if_pos h]
  have hclip : clip x (img_p2 g) (img_p98 g) ≤ clip y (img_p2 g) (img_p98 g) :=
    min_le_min (max_le_max hxy (le_refl _)) (le_refl _)
  exact Real.rpow_le_rpow (rescale_unit g x h hx).1
    ((div_le_div_iff_of_pos_right (sub_pos.mpr h)).mpr (sub_le_sub_right hclip _)) hcf

theorem normalize_image_of_const (g : List (List ℝ)) (c cf : ℝ) (hne : g.flatten ≠ [])
    (hc : ∀ x ∈ g.flatten, x = c) :
    normalize_image g cf = g.map (List.map (fun _ => c ^ cf)) := by
  have hp2 : img_p2 g = c := percentile_const 2 c _ hne (by norm_num) (by norm_num) hc
  have hp98 : img_p98 g = c := percentile_const 98 c _ hne (by norm_num) (by norm_num) hc
  have hclipc : ∀ x ∈ g.flatten, clip x (img_p2 g) (img_p98 g) = c := by
    intro x hx
    rw [hp2, hp98, hc x hx]
    simp [clip]
  have hclip_grid : clip_grid g = g.map (List.map (fun _ => c)) := by
    unfold clip_grid
    exact map_map_congr g _ _ hclipc
  have hflat : (clip_grid g).flatten = g.flatten.map (fun _ => c) := by
    rw [hclip_grid, flatten_map_map]
  have hflatne : (clip_grid g).flatten ≠ [] := by
    rw [hflat]
    simpa using hne
  have hmin : img_min g = c := by
    unfold img_min
    exact listMin_of_const _ c hflatne (by
      intro x hx
      rw [hflat] at hx
      obtain ⟨y, _, hyx⟩ := List.mem_map.mp hx
      exact hyx.symm)
  have hmax : img_max g = c := by
    unfold img_max
    exact listMax_of_const _ c hflatne (by
      intro x hx
      rw [hflat] at hx
      obtain ⟨y, _, hyx⟩ := List.mem_map.mp hx
      exact hyx.symm)
  have hres : rescale_grid g = clip_grid g := by
    unfold rescale_grid
    rw [hmin, hmax, if_neg (lt_irrefl c)]
  unfold normalize_image
  rw [hres, hclip_grid, List.map_map]
  apply List.map_congr_left
  intro row _
  simp only [Function.comp_apply, List.map_map]
  rfl


/-! ### Concrete percentile computations (for witnesses) -/

theorem percentile_pair (q a b : ℝ) (hab : a ≤ b) (hq0 : 0 ≤ q) (hq1 : q < 100) :
    percentile q [a, b] = a + q / 100 * (b - a) := by
  have hsort : List.insertionSort (· ≤ ·) [a, b] = [a, b] := by
    simp [List.insertionSort, List.orderedInsert, hab]
  have hpp : percentile_pos q ([a, b]).length = q / 100 := by
    show q * ((2 - 1 : ℕ) : ℝ) / 100 = q / 100
    norm_num
  have hfl : ⌊percentile_pos q ([a, b]).length⌋ = 0 := by
    rw [hpp, Int.floor_eq_zero_iff, Set.mem_Ico]
    constructor
    · positivity
    · rw [div_lt_one (by norm_num : (0:ℝ) < 100)]
      exact hq1
  have hd : (List.insertionSort (· ≤ ·) [a, b]).drop
      (⌊percentile_pos q ([a, b]).length⌋.toNat) = a :: b :: [] := by
    rw [hfl, hsort]
    rfl
  rw [hpp] at hfl
  rw [percentile_drop_pair hd, hpp, hfl]
  norm_num

theorem flatten_pair01 : ([[(0:ℝ)], [1]]).flatten = [0, 1] := by simp

theorem img_p2_pair01 : img_p2 [[(0:ℝ)], [1]] = 1 / 50 := by
  unfold img_p2
  rw [flatten_pair01, percentile_pair 2 0 1 (by norm_num) (by norm_num) (by norm_num)]
  norm_num

theorem img_p98_pair01 : img_p98 [[(0:ℝ)], [1]] = 49 / 50 := by
  unfold img_p98
  rw [flatten_pair01, percentile_pair 98 0 1 (by norm_num) (by norm_num) (by norm_num)]
  norm_num

theorem clip_grid_pair01 : clip_grid [[(0:ℝ)], [1]] = [[1 / 50], [49 / 50]] := by
  unfold clip_grid
  rw [img_p2_pair01, img_p98_pair01]
  norm_num [clip, max_def, min_def]

theorem img_min_pair01 : img_min [[(0:ℝ)], [1]] = 1 / 50 := by
  unfold img_min
  rw [clip_grid_pair01]
  norm_num [listMin, min_def]

theorem img_max_pair01 : img_max [[(0:ℝ)], [1]] = 49 / 50 := by
  unfold img_max
  rw [clip_grid_pair01]
  norm_num [listMax, max_def]

theorem sort_0011 : List.insertionSort (· ≤ ·) [(0:ℝ), 0, 1, 1] = [0, 0, 1, 1] := by
  simp only [List.insertionSort, List.orderedInsert]
  norm_num

theorem pp_2_4 : percentile_pos 2 4 = 3 / 50 := by
  show (2:ℝ) * ((4 - 1 : ℕ) : ℝ) / 100 = 3 / 50
  norm_num

theorem pp_98_4 : percentile_pos 98 4 = 147 / 50 := by
  show (98:ℝ) * ((4 - 1 : ℕ) : ℝ) / 100 = 147 / 50
  norm_num

theorem fl_2_4 : ⌊percentile_pos 2 4⌋ = 0 := by
  rw [pp_2_4, Int.floor_eq_zero_iff, Set.mem_Ico]
  norm_num

theorem fl_98_4 : ⌊percentile_pos 98 4⌋ = 2 := by
  rw [pp_98_4, Int.floor_eq_iff]
  norm_num

theorem perc2_0011 : percentile 2 [(0:ℝ), 0, 1, 1] = 0 := by
  have hd : (List.insertionSort (· ≤ ·) [(0:ℝ), 0, 1, 1]).drop
      (⌊percentile_pos 2 ([(0:ℝ), 0, 1, 1]).length⌋.toNat) = 0 :: 0 :: [1, 1] := by
    rw [show ([(0:ℝ), 0, 1, 1]).length = 4 from rfl, fl_2_4, sort_0011]
    rfl
  rw [percentile_drop_pair hd, show ([(0:ℝ), 0, 1, 1]).length = 4 from rfl, pp_2_4]
  norm_num

theorem perc98_0011 : percentile 98 [(0:ℝ), 0, 1, 1] = 1 := by
  have hd : (List.insertionSort (· ≤ ·) [(0:ℝ), 0, 1, 1]).drop
      (⌊percentile_pos 98 ([(0:ℝ), 0, 1, 1]).length⌋.toNat) = 1 :: 1 :: [] := by
    rw [show ([(0:ℝ), 0, 1, 1]).length = 4 from rfl, fl_98_4, sort_0011]
    rfl
  rw [percentile_drop_pair hd, show ([(0:ℝ), 0, 1, 1]).length = 4 from rfl, pp_98_4]
  norm_num

theorem flatten_0011 : ([[(0:ℝ), 0], [1, 1]]).flatten = [0, 0, 1, 1] := by simp

theorem img_p2_0011 : img_p2 [[(0:ℝ), 0], [1, 1]] = 0 := by
  unfold img_p2
  rw [flatten_0011, perc2_0011]

theorem img_p98_0011 : img_p98 [[(0:ℝ), 0], [1, 1]] = 1 := by
  unfold img_p98
  rw [flatten_0011, perc98_0011]

theorem listMin_0011 : listMin ([[(0:ℝ), 0], [1, 1]]).flatten = 0 := by
  rw [flatten_0011]
  norm_num [listMin, min_def]

theorem listMax_0011 : listMax ([[(0:ℝ), 0], [1, 1]]).flatten = 1 := by
  rw [flatten_0011]
  norm_num [listMax, max_def]

/-! ### Batch driver lemmas -/

theorem batch_pages_eq {F : Type} (dcmread : F → Option DicomData) (cf : ℝ)
    (files : List F) :
    batch_pages dcmread cf files =
      (files.filterMap (decoded dcmread)).map
        (fun p => render_page (normalize_image p.1 cf) (page_title p.2)) := by
  induction files with
  | nil => rfl
  | cons f rest ih =>
    rcases hr : read_dicom_image dcmread f with ⟨io, mo⟩
    cases io <;> cases mo <;>
      simp [batch_pages, decoded, List.filterMap_cons, hr, ih]

theorem length_filterMap_isNone {F β : Type} (f : F → Option β) (l : List F) :
    (l.filterMap f).length + l.countP (fun a => (f a).isNone) = l.length := by
  induction l with
  | nil => rfl
  | cons a rest ih =>
    rcases hf : f a with _ | b <;>
      simp [List.filterMap_cons, List.countP_cons, hf] <;> omega

theorem batch_pages_nil_of_fail {F : Type} (dcmread : F → Option DicomData) (cf : ℝ) :
    ∀ files : List F, (∀ f ∈ files, dcmread f = none) →
      batch_pages dcmread cf files = [] := by
  intro files
  induction files with
  | nil => intro _; rfl
  | cons f rest ih =>
    intro hfail
    have hf : dcmread f = none := hfail f (List.mem_cons_self f rest)
    have hr : read_dicom_image dcmread f = (none, none) := by
      unfold read_dicom_image
      rw [hf]
    simp [batch_pages, hr, ih (fun x hx => hfail x (List.mem_cons_of_mem f hx))]

theorem failure_code_true_some (pages : List Page) :
    failure_code true (some pages) = Except.ok 0 := by
  have h : (0 ||| 0 ||| 0 ||| 0 : ℕ) = 0 := by decide
  calc failure_code true (some pages) = Except.ok (0 ||| 0 ||| 0 ||| 0) := rfl
    _ = Except.ok 0 := by rw [h]

theorem convert_to_pdf_nonempty {F : Type} (dcmread : F → Option DicomData)
    (files : List F) (cf : ℝ) (h : files ≠ []) :
    convert_to_pdf dcmread files cf = (true, some (batch_pages dcmread cf files)) := by
  unfold convert_to_pdf
  rw [if_neg (by simpa using h)]

/-! ### Claim theorems -/

/-- C1 (counterexample): the claim "for every grid and every positive
contrast exponent, every sample returned by normalize_image lies in
[0, 1]" is false: the constant grid [[5]] with exponent 1 (a positive
exponent) normalizes to [[5]], because the degenerate max = min branch
skips the rescale and the power step maps 5 to 5. -/
theorem normalize_image_unit_range_counterexample :
    (0:ℝ) < 1 ∧ ¬ (∀ v ∈ (normalize_image [[(5:ℝ)]] 1).flatten, 0 ≤ v ∧ v ≤ 1) := by
  refine ⟨by norm_num, fun hall => ?_⟩
  have h5 := normalize_image_of_const [[(5:ℝ)]] 5 1 (by simp)
    (by intro x hx; simpa using hx)
  have hmem : (5:ℝ) ^ (1:ℝ) ∈ (normalize_image [[(5:ℝ)]] 1).flatten := by
    rw [h5]; simp
  have hle := (hall _ hmem).2
  rw [Real.rpow_one] at hle
  linarith

/-- C1 (amended): for every grid whose clipped maximum strictly exceeds
its clipped minimum and every positive contrast exponent, every sample
of the grid returned by normalize_image lies within [0, 1]. (Degenerate
grids whose clipped max equals the clipped min skip the rescale and can
leave [0, 1], as the counterexample shows.) -/
theorem normalize_image_mem_unit_interval (g : List (List ℝ)) (cf : ℝ) (hcf : 0 < cf)
    (h : img_min g < img_max g) :
    ∀ v ∈ (normalize_image g cf).flatten, 0 ≤ v ∧ v ≤ 1 := by
  intro v hv
  rw [normalize_image_eq_map, flatten_map_map] at hv
  obtain ⟨x, hx, hvx⟩ := List.mem_map.mp hv
  exact hvx ▸ norm_point_unit g cf x (le_of_lt hcf) h hx

/-- C1 (witness): the grid [[0], [1]] has clipped min 1/50 < clipped
max 49/50, and its normalization at exponent 1 lies in [0, 1]. -/
theorem normalize_image_mem_unit_interval_witness :
    ((0:ℝ) < 1 ∧ img_min [[(0:ℝ)], [1]] < img_max [[(0:ℝ)], [1]]) ∧
      ∀ v ∈ (normalize_image [[(0:ℝ)], [1]] 1).flatten, 0 ≤ v ∧ v ≤ 1 :=
  ⟨⟨by norm_num, by rw [img_min_pair01, img_max_pair01]; norm_num⟩,
    normalize_image_mem_unit_interval [[(0:ℝ)], [1]] 1 (by norm_num)
      (by rw [img_min_pair01, img_max_pair01]; norm_num)⟩

/-- C2 (counterexample): the claim "a grid whose samples are all equal
normalizes to the all-0.0 grid" is false: the constant grid
[[2, 2], [2, 2]] at exponent 1 normalizes to the constant 2 grid
(the rescale is skipped, and 2 ^ 1 = 2 ≠ 0). -/
theorem normalize_image_zero_grid_counterexample :
    ¬ (∀ v ∈ (normalize_image [[(2:ℝ), 2], [2, 2]] 1).flatten, v = 0) := by
  intro hall
  have h2 := normalize_image_of_const [[(2:ℝ), 2], [2, 2]] 2 1 (by simp)
    (by intro x hx; simpa using hx)
  have hmem : (2:ℝ) ^ (1:ℝ) ∈ (normalize_image [[(2:ℝ), 2], [2, 2]] 1).flatten := by
    rw [h2]; simp
  have h0 := hall _ hmem
  rw [Real.rpow_one] at h0
  norm_num at h0

/-- C2 (amended): a nonempty grid whose samples all equal c normalizes,
without any division being performed (the max = min branch skips the
rescale), to the constant grid of value c ^ g; this value is 0.0
exactly when c = 0, not in general. -/
theorem normalize_image_const_grid (g : List (List ℝ)) (c cf : ℝ)
    (hne : g.flatten ≠ []) (hc : ∀ x ∈ g.flatten, x = c) :
    normalize_image g cf = g.map (List.map (fun _ => c ^ cf)) :=
  normalize_image_of_const g c cf hne hc

/-- C2 (witness): the constant grid [[3, 3], [3, 3]] at exponent 1
normalizes to the constant 3 ^ 1 grid. -/
theorem normalize_image_const_grid_witness :
    (([[(3:ℝ), 3], [3, 3]]).flatten ≠ [] ∧ ∀ x ∈ ([[(3:ℝ), 3], [3, 3]]).flatten, x = 3) ∧
      normalize_image [[(3:ℝ), 3], [3, 3]] 1 =
        ([[(3:ℝ), 3], [3, 3]]).map (List.map (fun _ => (3:ℝ) ^ (1:ℝ))) :=
  ⟨⟨by simp, by intro x hx; simpa using hx⟩,
    normalize_image_const_grid [[(3:ℝ), 3], [3, 3]] 3 1 (by simp)
      (by intro x hx; simpa using hx)⟩

/-- C3: for every non-empty batch, convert_to_pdf succeeds and produces
exactly the pages of the successfully decoded files, rendered in input
order with the skipped files removed, and the page count equals the
number of input files minus the number of files whose decode failed. -/
theorem convert_to_pdf_page_count {F : Type} (dcmread : F → Option DicomData)
    (files : List F) (cf : ℝ) (h : files ≠ []) :
    convert_to_pdf dcmread files cf =
      (true, some ((files.filterMap (decoded dcmread)).map
        (fun p => render_page (normalize_image p.1 cf) (page_title p.2)))) ∧
      ((files.filterMap (decoded dcmread)).map
        (fun p => render_page (normalize_image p.1 cf) (page_title p.2))).length =
        files.length - files.countP (fun f => (decoded dcmread f).isNone) := by
  constructor
  · rw [convert_to_pdf_nonempty dcmread files cf h, batch_pages_eq]
  · have hlen := length_filterMap_isNone (decoded dcmread) files
    rw [List.length_map]
    omega

/-- C3 (witness): three files where file 1 fails to decode yield a
two-page document, pages in input order. -/
theorem convert_to_pdf_page_count_witness :
    (([0, 1, 2] : List ℕ) ≠ []) ∧
      (convert_to_pdf witness_dcmread [0, 1, 2] 1 =
        (true, some ((List.filterMap (decoded witness_dcmread) [0, 1, 2]).map
          (fun p => render_page (normalize_image p.1 1) (page_title p.2)))) ∧
        ((List.filterMap (decoded witness_dcmread) [0, 1, 2]).map
          (fun p => render_page (normalize_image p.1 1) (page_title p.2))).length =
          ([0, 1, 2] : List ℕ).length -
            List.countP (fun f => (decoded witness_dcmread f).isNone) [0, 1, 2]) :=
  ⟨by decide, convert_to_pdf_page_count witness_dcmread [0, 1, 2] 1 (by decide)⟩

/-- C4 (counterexample): the claim "a non-empty batch in which every
file fails to decode reports failure" is false: with one input file
whose decode fails, convert_to_pdf still returns True with an empty
(but valid, non-empty-on-disk) document, and the driver's failure code
is 0, i.e. success. -/
theorem all_failures_reports_success_counterexample :
    (∀ f ∈ ([0] : List ℕ), failing_dcmread f = none) ∧
      convert_to_pdf failing_dcmread [0] 1 = (true, some []) ∧
      run_batch failing_dcmread [0] 1 = Except.ok 0 := by
  refine ⟨fun f _ => rfl, rfl, ?_⟩
  have h : convert_to_pdf failing_dcmread [0] 1 = (true, some []) := rfl
  unfold run_batch
  rw [h]
  exact failure_code_true_some []

/-- C4 (amended): for every non-empty input list in which every file
fails to decode, zero pages are rendered, yet convert_to_pdf returns
True and the batch driver reports success (failure code 0): the driver
has no zero-page check, and the assembler's empty document is a valid
non-empty artifact. -/
theorem convert_to_pdf_all_failures {F : Type} (dcmread : F → Option DicomData)
    (files : List F) (cf : ℝ) (h : files ≠ [])
    (hfail : ∀ f ∈ files, dcmread f = none) :
    convert_to_pdf dcmread files cf = (true, some []) ∧
      run_batch dcmread files cf = Except.ok 0 := by
  have hconv : convert_to_pdf dcmread files cf = (true, some []) := by
    rw [convert_to_pdf_nonempty dcmread files cf h,
      batch_pages_nil_of_fail dcmread cf files hfail]
  refine ⟨hconv, ?_⟩
  unfold run_batch
  rw [hconv]
  exact failure_code_true_some []

/-- C4 (witness): one undecodable file, reported as success. -/
theorem convert_to_pdf_all_failures_witness :
    (([5] : List ℕ) ≠ [] ∧ ∀ f ∈ ([5] : List ℕ), failing_dcmread f = none) ∧
      (convert_to_pdf failing_dcmread [5] 1 = (true, some []) ∧
        run_batch failing_dcmread [5] 1 = Except.ok 0) :=
  ⟨⟨by decide, fun f _ => rfl⟩,
    convert_to_pdf_all_failures failing_dcmread [5] 1 (by decide) (fun f _ => rfl)⟩

/-- C5: for every grid whose clipped maximum strictly exceeds its
clipped minimum and every positive contrast factor, normalize_image is
the pointwise map norm_point, its output lies entirely within [0, 1],
and it is monotone non-decreasing in the sample value: raw samples
x ≤ y of the grid map to normalized values norm_point x ≤ norm_point y
at the corresponding positions. -/
theorem normalize_image_unit_and_monotone (g : List (List ℝ)) (cf : ℝ) (hcf : 0 < cf)
    (h : img_min g < img_max g) :
    normalize_image g cf = g.map (List.map (norm_point g cf)) ∧
      (∀ v ∈ (normalize_image g cf).flatten, 0 ≤ v ∧ v ≤ 1) ∧
      ∀ x ∈ g.flatten, ∀ y ∈ g.flatten, x ≤ y →
        norm_point g cf x ≤ norm_point g cf y := by
  refine ⟨normalize_image_eq_map g cf, ?_, ?_⟩
  · intro v hv
    rw [normalize_image_eq_map, flatten_map_map] at hv
    obtain ⟨x, hx, hvx⟩ := List.mem_map.mp hv
    exact hvx ▸ norm_point_unit g cf x (le_of_lt hcf) h hx
  · intro x hx y _ hxy
    exact norm_point_mono g cf (le_of_lt hcf) h hx hxy

/-- C5 (witness): the theorem applied to the grid [[0], [1]] (clipped
min 1/50 < clipped max 49/50) at contrast factor 1. -/
theorem normalize_image_unit_and_monotone_witness :
    ((0:ℝ) < 1 ∧ img_min [[(0:ℝ)], [1]] < img_max [[(0:ℝ)], [1]]) ∧
      (normalize_image [[(0:ℝ)], [1]] 1 =
          ([[(0:ℝ)], [1]]).map (List.map (norm_point [[(0:ℝ)], [1]] 1)) ∧
        (∀ v ∈ (normalize_image [[(0:ℝ)], [1]] 1).flatten, 0 ≤ v ∧ v ≤ 1) ∧
        ∀ x ∈ ([[(0:ℝ)], [1]]).flatten, ∀ y ∈ ([[(0:ℝ)], [1]]).flatten, x ≤ y →
          norm_point [[(0:ℝ)], [1]] 1 x ≤ norm_point [[(0:ℝ)], [1]] 1 y) :=
  ⟨⟨by norm_num, by rw [img_min_pair01, img_max_pair01]; norm_num⟩,
    normalize_image_unit_and_monotone [[(0:ℝ)], [1]] 1 (by norm_num)
      (by rw [img_min_pair01, img_max_pair01]; norm_num)⟩

/-- C6: on a grid already scaled to [0, 1] (minimum 0, maximum 1) whose
2nd and 98th percentiles equal its minimum and maximum, normalize_image
at contrast factor 1 is the identity map, and applying it twice equals
applying it once. -/
theorem normalize_image_identity_idempotent (g : List (List ℝ))
    (hmin : listMin g.flatten = 0) (hmax : listMax g.flatten = 1)
    (hp2 : img_p2 g = listMin g.flatten) (hp98 : img_p98 g = listMax g.flatten) :
    normalize_image g 1 = g ∧
      normalize_image (normalize_image g 1) 1 = normalize_image g 1 := by
  have hbound : ∀ x ∈ g.flatten, 0 ≤ x ∧ x ≤ 1 := fun x hx =>
    ⟨hmin ▸ listMin_le_of_mem _ _ hx, hmax ▸ le_listMax_of_mem _ _ hx⟩
  have hclipid : ∀ x ∈ g.flatten, clip x (img_p2 g) (img_p98 g) = x := by
    intro x hx
    rw [hp2, hp98, hmin, hmax]
    unfold clip
    rw [max_eq_left (hbound x hx).1, min_eq_left (hbound x hx).2]
  have hclip_grid : clip_grid g = g := map_map_id g _ hclipid
  have hmin' : img_min g = 0 := by
    unfold img_min
    rw [hclip_grid]
    exact hmin
  have hmax' : img_max g = 1 := by
    unfold img_max
    rw [hclip_grid]
    exact hmax
  have hres : rescale_grid g = g := by
    unfold rescale_grid
    rw [hmin', hmax', if_pos (by norm_num : (0:ℝ) < 1), hclip_grid]
    apply map_map_id
    intro x _
    norm_num
  have hid : normalize_image g 1 = g := by
    unfold normalize_image
    rw [hres]
    apply map_map_id
    intro x _
    exact Real.rpow_one x
  exact ⟨hid, by rw [hid, hid]⟩

/-- C6 (witness): the grid [[0, 0], [1, 1]] has min 0, max 1, its 2nd
percentile is its min and its 98th percentile is its max, and
normalizing at contrast factor 1 is the identity on it. -/
theorem normalize_image_identity_idempotent_witness :
    (listMin ([[(0:ℝ), 0], [1, 1]]).flatten = 0 ∧
      listMax ([[(0:ℝ), 0], [1, 1]]).flatten = 1 ∧
      img_p2 [[(0:ℝ), 0], [1, 1]] = listMin ([[(0:ℝ), 0], [1, 1]]).flatten ∧
      img_p98 [[(0:ℝ), 0], [1, 1]] = listMax ([[(0:ℝ), 0], [1, 1]]).flatten) ∧
      (normalize_image [[(0:ℝ), 0], [1, 1]] 1 = [[(0:ℝ), 0], [1, 1]] ∧
        normalize_image (normalize_image [[(0:ℝ), 0], [1, 1]] 1) 1 =
          normalize_image [[(0:ℝ), 0], [1, 1]] 1) :=
  ⟨⟨listMin_0011, listMax_0011, by rw [img_p2_0011, listMin_0011],
      by rw [img_p98_0011, listMax_0011]⟩,
    normalize_image_identity_idempotent [[(0:ℝ), 0], [1, 1]] listMin_0011 listMax_0011
      (by rw [img_p2_0011, listMin_0011]) (by rw [img_p98_0011, listMax_0011])⟩

/-- C7: after every batch run (the driver only runs on a non-empty
upload list), the failure code computation completes without any raw
exception (the Except channel carries `ok`), the run is reported as
success exactly when all four checks pass (conversion returned True,
artifact present, artifact a regular file — both observed through the
artifact's presence — and artifact non-empty), and each failing check
corresponds to its bit of the mask (bit 0 conversion failure, bits 1
and 2 artifact missing / not a regular file, bit 3 empty artifact). -/
theorem run_batch_failure_code_bits {F : Type} (dcmread : F → Option DicomData)
    (files : List F) (cf : ℝ) (h : files ≠ []) :
    ∃ m, run_batch dcmread files cf = Except.ok m ∧
      (m = 0 ↔ ((convert_to_pdf dcmread files cf).1 = true ∧
        ((convert_to_pdf dcmread files cf).2).isSome = true ∧
        stat_size (convert_to_pdf dcmread files cf).2 ≠ Except.ok 0)) ∧
      (m.testBit 0 ↔ (convert_to_pdf dcmread files cf).1 = false) ∧
      (m.testBit 1 ↔ ((convert_to_pdf dcmread files cf).2).isSome = false) ∧
      (m.testBit 2 ↔ ((convert_to_pdf dcmread files cf).2).isSome = false) ∧
      (m.testBit 3 ↔ stat_size (convert_to_pdf dcmread files cf).2 = Except.ok 0) := by
  have hconv := convert_to_pdf_nonempty dcmread files cf h
  have hstat : stat_size (some (batch_pages dcmread cf files)) =
      Except.ok ((batch_pages dcmread cf files).length + 1) := rfl
  refine ⟨0, ?_, ?_, ?_, ?_, ?_, ?_⟩
  · unfold run_batch
    rw [hconv]
    exact failure_code_true_some _
  · simp [hconv, hstat]
  · simp [hconv, Nat.zero_testBit]
  · simp [hconv, Nat.zero_testBit]
  · simp [hconv, Nat.zero_testBit]
  · simp [hconv, hstat, Nat.zero_testBit]

/-- C7 (witness): the theorem applied to a one-file batch whose file
fails to decode: the run completes with mask 0 and all bits clear. -/
theorem run_batch_failure_code_bits_witness :
    (([7] : List ℕ) ≠ []) ∧
      ∃ m, run_batch failing_dcmread [7] 1 = Except.ok m ∧
        (m = 0 ↔ ((convert_to_pdf failing_dcmread [7] 1).1 = true ∧
          ((convert_to_pdf failing_dcmread [7] 1).2).isSome = true ∧
          stat_size (convert_to_pdf failing_dcmread [7] 1).2 ≠ Except.ok 0)) ∧
        (m.testBit 0 ↔ (convert_to_pdf failing_dcmread [7] 1).1 = false) ∧
        (m.testBit 1 ↔ ((convert_to_pdf failing_dcmread [7] 1).2).isSome = false) ∧
        (m.testBit 2 ↔ ((convert_to_pdf failing_dcmread [7] 1).2).isSome = false) ∧
        (m.testBit 3 ↔ stat_size (convert_to_pdf failing_dcmread [7] 1).2 = Except.ok 0) :=
  ⟨by decide, run_batch_failure_code_bits failing_dcmread [7] 1 (by decide)⟩

/-- C8: on the empty input file list, convert_to_pdf returns the
failure outcome False immediately, creating no document artifact (the
PdfPages writer is never opened) and attempting no per-file processing
— the result is the same for every decode oracle. -/
theorem convert_to_pdf_empty_list (F : Type) (dcmread : F → Option DicomData) (cf : ℝ) :
    convert_to_pdf dcmread ([] : List F) cf = (false, none) := rfl

/-- C9 (counterexample): the claim's title formula (replace separators,
then trim) disagrees with the code (which trims first, then replaces):
for patient name "A^" and empty series description the code renders
"A " (trailing space kept, because the '^' became a space only after
the trim), while the claim's formula yields "A". -/
theorem page_title_order_counterexample :
    page_title ⟨("A^"), (""), (""), (""), (""), (""), 0, 0⟩ = ("A ") ∧
      claimed_title ⟨("A^"), (""), (""), (""), (""), (""), 0, 0⟩ = ("A") ∧
      page_title ⟨("A^"), (""), (""), (""), (""), (""), 0, 0⟩ ≠
        claimed_title ⟨("A^"), (""), (""), (""), (""), (""), 0, 0⟩ := by
  refine ⟨?_, ?_, ?_⟩ <;> decide

/-- C9 (amended): the rendered page title equals the patient name
whitespace-trimmed first and THEN with the separator characters '^' and
'_' replaced by spaces, concatenated with " | " plus the identically
cleaned series description when the raw series description is
non-empty; and the renderer omits the title exactly when the resulting
title is empty (rendering itself is total in the title). -/
theorem page_title_amended (metadata : ImageMetadata) (norm_img : List (List ℝ)) :
    page_title metadata = amended_title metadata ∧
      ((render_page norm_img (page_title metadata)).title = none ↔
        page_title metadata = ("")) := by
  constructor
  · unfold page_title amended_title clean_text
    rfl
  · unfold render_page
    by_cases ht : page_title metadata = ("")
    · simp [ht]
    · simp [ht]

/-- C10: read_dicom_image always returns either both components
(`some` pixel grid and `some` metadata) or the pair (none, none); it
never returns exactly one `none`, and the embedding's totality reflects
that every internal exception is caught by the source's bare `except`
clauses rather than escaping. -/
theorem read_dicom_image_none_or_both {F : Type} (dcmread : F → Option DicomData)
    (file_path : F) :
    read_dicom_image dcmread file_path = (none, none) ∨
      ∃ image_array metadata, read_dicom_image dcmread file_path =
        (some image_array, some metadata) := by
  rcases hd : dcmread file_path with _ | d
  · left
    simp [read_dicom_image, hd]
  · rcases hp : d.pixelArray with _ | img
    · left
      simp [read_dicom_image, hd, hp]
    · right
      refine ⟨img,
        { patient_name := d.PatientName.getD (""),
          series_description := d.SeriesDescription.getD (""),
          instance_number := d.InstanceNumber.getD (""),
          slice_location := d.SliceLocation.getD (""),
          study_date := d.StudyDate.getD (""),
          modality := d.Modality.getD (""),
          rows := d.Rows.getD 0, columns := d.Columns.getD 0 }, ?_⟩
      simp [read_dicom_image, hd, hp]
